import Mathlib

/-!
Verification of the namebench DNS benchmarking core against its design
specification.

The development shallowly embeds the Go sources:

* dnsqueue/dnsqueue.go — the Request/Answer/Result data model, SendQuery, the
  queue Add guard and the worker loop;
* the CLI benchmark driver (runCliBenchmark, parseNameservers) — job creation,
  result collection, per-nameserver summarisation, ranking and the "fastest"
  subset;
* ui/ui.go — the Submit handler's job creation.

Machine integers (Go time.Duration, int64 nanoseconds) are modelled as Int;
Go float64 summary averages are modelled as exact rationals, which agrees with
the float computation on all the concrete values appearing below; Go's
truncating int64 division is Int.tdiv.  The DNS wire transport
(miekg/dns ExchangeContext) is external to the repository and is modelled as an
oracle parameter.  Go strings.Split / strings.TrimSpace / strings.Contains and
byte-wise string comparison are modelled as structural functions on the
character list of a string.
-/

namespace Namebench

/-- Values a non-nil Go context.Context can denote: context.Background() or any
other context.  A Go context **variable** may additionally be nil; that is the
surrounding Option being none. -/
inductive CtxVal where
  | background
  | other (id : Nat)
deriving DecidableEq

/-- Model of a Go context.Context variable, nil being none. -/
abbrev GoContext := Option CtxVal

/-- Mirrors dnsqueue.Request: data for making one DNS request. -/
structure Request where
  Ctx : GoContext
  Destination : String
  RecordType : String
  RecordName : String
  VerifySignature : Bool
deriving DecidableEq

/-- Mirrors dnsqueue.Answer: a single answer returned by a DNS server. -/
structure Answer where
  Ttl : Nat
  Name : String
  String : String
deriving DecidableEq

/-- Mirrors dnsqueue.Result: the outcome of one request.  Duration is the Go
time.Duration field (int64 nanoseconds); Error is the Go error-string field,
empty meaning success. -/
structure Result where
  Request : Request
  Duration : Int
  Answers : List Answer
  Error : String
deriving DecidableEq

/-- A DNS resource record as handed back by the transport; SendQuery projects
it into an Answer (rr.Header().Ttl, rr.Header().Name, rr.String()). -/
structure ResourceRecord where
  ttl : Nat
  name : String
  rendered : String
deriving DecidableEq

/-- Mirrors the dns.Msg built by SendQuery: m.SetQuestion(name, type) plus the
optional m.SetEdns0(4096, true) when VerifySignature is set. -/
structure DnsMsg where
  question : String
  qtype : Nat
  edns : Option (Nat × Bool)
deriving DecidableEq

/-- Outcome of one c.ExchangeContext(ctx, m, dest) call: either a response

with its answer section and round-trip time, or a transport error with the
time spent. -/
inductive ExchangeOutcome where
  | ok (answers : List ResourceRecord) (rtt : Int)
  | fail (msg : String) (rtt : Int)
deriving DecidableEq

/-- Round-trip time reported by an exchange outcome (the rtt return value of
ExchangeContext, which SendQuery copies into Result.Duration). -/
def ExchangeOutcome.rtt : ExchangeOutcome → Int
  | ExchangeOutcome.ok _ r => r
  | ExchangeOutcome.fail _ r => r

/-- Model of the external DNS client transport (miekg/dns
Client.ExchangeContext), taken as an oracle: given the request context, the
query message and the destination address it yields an outcome. -/
abbrev Exchange := GoContext → DnsMsg → String → ExchangeOutcome

/-- Modelled from the spec: the mnemonic table dns.StringToType of the external
miekg/dns dependency ("recordType must map to a known DNS type mnemonic").
Common mnemonics map to their wire codes; anything else maps to none. -/
def stringToType : String → Option Nat
  | "A" => some 1
  | "NS" => some 2
  | "CNAME" => some 5
  | "SOA" => some 6
  | "PTR" => some 12
  | "MX" => some 15
  | "TXT" => some 16
  | "AAAA" => some 28
  | "SRV" => some 33
  | "ANY" => some 255
  | _ => none

/-- Error string for an unknown record type, mirroring
fmt.Errorf("invalid DNS record type %q for domain %s", ...). -/
def errInvalidType (rtype rname : String) : String :=
  "invalid DNS record type \x22" ++ (rtype ++ ("\x22 for domain " ++ rname))

/-- Error string for a failed exchange, mirroring
fmt.Errorf("dns exchange failed for %s to %s (record type %s): %w", ...). -/
def errExchange (rname dest rtype msg : String) : String :=
  "dns exchange failed for " ++ (rname ++ (" to " ++ (dest ++ (" (record type " ++ (rtype ++ ("): " ++ msg))))))

/-- Mirrors dnsqueue.SendQuery: resolve the record-type mnemonic (failing
immediately when unknown), build the query message, run one exchange, and
package the outcome as a Result.  The zero value of Duration (0) is kept on
the pre-flight failure path, exactly as in Go where result.Duration is never
assigned there. -/
def SendQuery (exchange : Exchange) (ctx : GoContext) (request : Request) : Result :=
  match stringToType request.RecordType with
  | none =>
      { Request := request
        Duration := 0
        Answers := []
        Error := errInvalidType request.RecordType request.RecordName }
  | some rtype =>
      let m : DnsMsg :=
        { question := request.RecordName
          qtype := rtype
          edns := if request.VerifySignature then some (4096, true) else none }
      match exchange ctx m request.Destination with
      | ExchangeOutcome.fail msg rtt =>
          { Request := request
            Duration := rtt
            Answers := []
            Error := errExchange request.RecordName request.Destination request.RecordType msg }
      | ExchangeOutcome.ok rrs rtt =>
          { Request := request
            Duration := rtt
            Answers := rrs.map (fun rr => { Ttl := rr.ttl, Name := rr.name, String := rr.rendered })
            Error := "" }

/-- Mirrors Queue.Add: a nil context is replaced by context.Background() before
the Request is built and enqueued. -/
def Add (ctx : GoContext) (dest rtype rname : String) (verifySignature : Bool) : Request :=
  { Ctx := match ctx with
           | none => some CtxVal.background
           | some c => some c
    Destination := dest
    RecordType := rtype
    RecordName := rname
    VerifySignature := verifySignature }

/-- Mirrors the ctxToUse guard in startWorker: a dequeued Request whose Ctx
field is nil gets context.Background() substituted. -/
def ctxToUse (request : Request) : GoContext :=
  match request.Ctx with
  | none => some CtxVal.background
  | some c => some c

/-- One iteration of the startWorker loop body: the worker calls SendQuery with
the guarded context and publishes the returned Result. -/
def processRequest (exchange : Exchange) (request : Request) : Result :=
  SendQuery exchange (ctxToUse request) request

/-- Helper: a string with a non-empty left part stays non-empty under append. -/
theorem append_ne_empty_left (s t : String) (h : s ≠ "") : s ++ t ≠ "" := by
  intro hc
  apply h
  have hd := congrArg String.data hc
  rw [String.data_append] at hd
  exact String.ext (List.append_eq_nil.mp hd).1

/-- Helper: the unknown-record-type error string is never empty. -/
theorem errInvalidType_ne_empty (rtype rname : String) : errInvalidType rtype rname ≠ "" := by
  apply append_ne_empty_left
  simp

/-- C5: for every Result produced by the query executor SendQuery, a present
failure description implies zero Answer records, and an absent failure
description implies a non-negative elapsed duration.  The latter half is
relative to the transport oracle reporting non-negative round-trip times, as
the real clock-measuring miekg/dns transport does. -/
theorem sendQuery_failure_shape
    (exchange : Exchange) (ctx : GoContext) (request : Request)
    (hrtt : ∀ c m d, 0 ≤ (exchange c m d).rtt) :
    ((SendQuery exchange ctx request).Error ≠ "" →
      (SendQuery exchange ctx request).Answers = []) ∧
    ((SendQuery exchange ctx request).Error = "" →
      0 ≤ (SendQuery exchange ctx request).Duration) := by
  cases hty : stringToType request.RecordType with
  | none =>
      constructor
      · intro _
        simp [SendQuery, hty]
      · intro _
        simp [SendQuery, hty]
  | some rtype =>
      have hr := hrtt ctx
        { question := request.RecordName
          qtype := rtype
          edns := if request.VerifySignature then some (4096, true) else none }
        request.Destination
      cases hex : exchange ctx
          { question := request.RecordName
            qtype := rtype
            edns := if request.VerifySignature then some (4096, true) else none }
          request.Destination with
      | fail msg rtt =>
          rw [hex] at hr
          simp only [ExchangeOutcome.rtt] at hr
          constructor
          · intro _
            simp [SendQuery, hty, hex]
          · intro _
            simpa [SendQuery, hty, hex] using hr
      | ok rrs rtt =>
          rw [hex] at hr
          simp only [ExchangeOutcome.rtt] at hr
          constructor
          · intro hne
            exact absurd (by simp [SendQuery, hty, hex]) hne
          · intro _
            simpa [SendQuery, hty, hex] using hr

/-- Witness for C5 at a concrete transport and request. -/
theorem sendQuery_failure_shape_witness :
    ((SendQuery (fun _ _ _ => ExchangeOutcome.ok [] 7) (some CtxVal.background)
        { Ctx := some CtxVal.background, Destination := "8.8.8.8:53", RecordType := "A",
          RecordName := "example.com.", VerifySignature := false }).Error ≠ "" →
      (SendQuery (fun _ _ _ => ExchangeOutcome.ok [] 7) (some CtxVal.background)
        { Ctx := some CtxVal.background, Destination := "8.8.8.8:53", RecordType := "A",
          RecordName := "example.com.", VerifySignature := false }).Answers = []) ∧
    ((SendQuery (fun _ _ _ => ExchangeOutcome.ok [] 7) (some CtxVal.background)
        { Ctx := some CtxVal.background, Destination := "8.8.8.8:53", RecordType := "A",
          RecordName := "example.com.", VerifySignature := false }).Error = "" →
      0 ≤ (SendQuery (fun _ _ _ => ExchangeOutcome.ok [] 7) (some CtxVal.background)
        { Ctx := some CtxVal.background, Destination := "8.8.8.8:53", RecordType := "A",
          RecordName := "example.com.", VerifySignature := false }).Duration) :=
  sendQuery_failure_shape (fun _ _ _ => ExchangeOutcome.ok [] 7) (some CtxVal.background)
    { Ctx := some CtxVal.background, Destination := "8.8.8.8:53", RecordType := "A",
      RecordName := "example.com.", VerifySignature := false }
    (fun _ _ _ => by norm_num [ExchangeOutcome.rtt])

/-- C6: a Request whose record-type mnemonic is unknown fails immediately:
SendQuery returns the same Result for every transport oracle and context (so
no exchange is attempted), with a non-empty failure description, zero Answers
and an elapsed duration of exactly zero. -/
theorem sendQuery_unknown_type_immediate
    (exchange exchange2 : Exchange) (ctx ctx2 : GoContext) (request : Request)
    (hty : stringToType request.RecordType = none) :
    SendQuery exchange ctx request = SendQuery exchange2 ctx2 request ∧
    (SendQuery exchange ctx request).Error ≠ "" ∧
    (SendQuery exchange ctx request).Answers = [] ∧
    (SendQuery exchange ctx request).Duration = 0 := by
  unfold SendQuery
  rw [hty]
  exact ⟨rfl, errInvalidType_ne_empty _ _, rfl, rfl⟩

/-- Witness for C6 at the unknown mnemonic "BOGUS" and two distinct oracles. -/
theorem sendQuery_unknown_type_immediate_witness :
    SendQuery (fun _ _ _ => ExchangeOutcome.ok [] 7) none
        { Ctx := none, Destination := "8.8.8.8:53", RecordType := "BOGUS",
          RecordName := "example.com.", VerifySignature := false } =
      SendQuery (fun _ _ _ => ExchangeOutcome.fail "boom" 3) (some CtxVal.background)
        { Ctx := none, Destination := "8.8.8.8:53", RecordType := "BOGUS",
          RecordName := "example.com.", VerifySignature := false } ∧
    (SendQuery (fun _ _ _ => ExchangeOutcome.ok [] 7) none
        { Ctx := none, Destination := "8.8.8.8:53", RecordType := "BOGUS",
          RecordName := "example.com.", VerifySignature := false }).Error ≠ "" ∧
    (SendQuery (fun _ _ _ => ExchangeOutcome.ok [] 7) none
        { Ctx := none, Destination := "8.8.8.8:53", RecordType := "BOGUS",
          RecordName := "example.com.", VerifySignature := false }).Answers = [] ∧
    (SendQuery (fun _ _ _ => ExchangeOutcome.ok [] 7) none
        { Ctx := none, Destination := "8.8.8.8:53", RecordType := "BOGUS",
          RecordName := "example.com.", VerifySignature := false }).Duration = 0 :=
  sendQuery_unknown_type_immediate _ _ _ _ _ rfl

/-- C10: the dispatch queue is nil-context safe: Add substitutes
context.Background() for a nil context argument, and the worker substitutes
context.Background() for a nil Ctx field before invoking SendQuery, so the
context SendQuery is invoked with is never nil. -/
theorem queue_nil_context_safe :
    (∀ request : Request, ctxToUse request ≠ none) ∧
    (∀ (ctx : GoContext) (dest rtype rname : String) (vs : Bool),
      (Add ctx dest rtype rname vs).Ctx ≠ none) := by
  constructor
  · intro r
    cases h : r.Ctx <;> simp [ctxToUse, h]
  · intro ctx dest rtype rname vs
    cases ctx <;> simp [Add]

/-- Jobs pulled from the shared Requests channel by worker number w, in
submission order: the channel hands each submitted Request to exactly one
worker, which the assignment list encodes (entry i names the worker that
dequeues job i). -/
def workerSlice (jobs : List Request) (assignment : List Nat) (w : Nat) : List Request :=
  ((jobs.zip assignment).filter (fun p => p.2 == w)).map Prod.fst

/-- Results published by one worker running the startWorker loop over the jobs
it dequeues: one Result per job, in order. -/
def workerRun (exchange : Exchange) (jobs : List Request) : List Result :=
  jobs.map (processRequest exchange)

/-- All Results published to the Results channel by a pool of workerCount
workers draining the submitted jobs under the given job-to-worker assignment,
grouped by worker.  The actual channel delivers some interleaving — i.e. some
permutation — of these. -/
def poolResults (exchange : Exchange) (jobs : List Request) (assignment : List Nat)
    (workerCount : Nat) : List Result :=
  ((List.range workerCount).map (fun w => workerRun exchange (workerSlice jobs assignment w))).flatten

/-- Mirrors the collection loop of runCliBenchmark: block-read from the
Results stream until answered == len(selectedDomains), accumulating the read
Results in order. -/
def collectLoop : Nat → List Result → List Result
  | 0, _ => []
  | _ + 1, [] => []
  | n + 1, r :: rest => r :: collectLoop n rest

theorem workerSlice_nil (assignment : List Nat) (w : Nat) :
    workerSlice [] assignment w = [] := by
  simp [workerSlice]

theorem workerSlice_cons (j : Request) (jobs : List Request) (t : Nat)
    (ts : List Nat) (w : Nat) :
    workerSlice (j :: jobs) (t :: ts) w =
      if t = w then j :: workerSlice jobs ts w else workerSlice jobs ts w := by
  simp only [workerSlice, List.zip_cons_cons, List.filter_cons]
  by_cases h : t = w
  · simp [h]
  · simp [h]

/-- Helper: prepending one element to the slice of a single tag t permutes the
flattened per-tag lists by inserting that element at the front. -/
theorem flatten_map_update (ws : List Nat) (f g : Nat → List Result) (x : Result) (t : Nat)
    (hmem : t ∈ ws) (hnodup : ws.Nodup)
    (hg : ∀ w ∈ ws, g w = if t = w then x :: f w else f w) :
    List.Perm ((ws.map g).flatten) (x :: (ws.map f).flatten) := by
  induction ws with
  | nil => cases hmem
  | cons w ws ih =>
      have hw := hg w (List.mem_cons_self w ws)
      by_cases hew : t = w
      · subst hew
        rw [if_pos rfl] at hw
        have hrest : ∀ w2 ∈ ws, g w2 = f w2 := by
          intro w2 hw2
          have hne : t ≠ w2 := by
            intro hc
            subst hc
            exact (List.nodup_cons.mp hnodup).1 hw2
          rw [hg w2 (List.mem_cons_of_mem _ hw2), if_neg hne]
        simp only [List.map_cons, List.flatten_cons, hw,
          List.map_congr_left hrest, List.cons_append]
        exact List.Perm.refl _
      · have hmem2 : t ∈ ws := by
          cases List.mem_cons.mp hmem with
          | inl h => exact absurd h hew
          | inr h => exact h
        rw [if_neg hew] at hw
        have hper := ih hmem2 (List.nodup_cons.mp hnodup).2
          (fun w2 hw2 => hg w2 (List.mem_cons_of_mem _ hw2))
        simp only [List.map_cons, List.flatten_cons, hw]
        exact List.Perm.trans (List.Perm.append_left (f w) hper) List.perm_middle

/-- Core of C1: whatever the job-to-worker assignment, the multiset of
Results the pool publishes is exactly the image of the submitted jobs under
the worker body — one Result per job. -/
theorem poolResults_perm (exchange : Exchange) (workerCount : Nat) :
    ∀ (jobs : List Request) (assignment : List Nat),
      assignment.length = jobs.length →
      (∀ t ∈ assignment, t < workerCount) →
      List.Perm (poolResults exchange jobs assignment workerCount)
        (jobs.map (processRequest exchange)) := by
  intro jobs
  induction jobs with
  | nil =>
      intro assignment _ _
      simp [poolResults, workerSlice_nil, workerRun]
  | cons j js ih =>
      intro assignment hlen hlt
      cases assignment with
      | nil => cases hlen
      | cons t ts =>
          have hlen2 : ts.length = js.length := by
            simpa using hlen
          have hlt2 : ∀ u ∈ ts, u < workerCount := by
            intro u hu
            exact hlt u (List.mem_cons_of_mem _ hu)
          have hslice : ∀ w ∈ List.range workerCount,
              workerRun exchange (workerSlice (j :: js) (t :: ts) w) =
                if t = w then processRequest exchange j ::
                    workerRun exchange (workerSlice js ts w)
                  else workerRun exchange (workerSlice js ts w) := by
            intro w _
            rw [workerSlice_cons]
            by_cases h : t = w
            · simp [h, workerRun]
            · simp [h]
          have hupd := flatten_map_update (List.range workerCount)
            (fun w => workerRun exchange (workerSlice js ts w))
            (fun w => workerRun exchange (workerSlice (j :: js) (t :: ts) w))
            (processRequest exchange j) t
            (List.mem_range.mpr (hlt t (List.mem_cons_self t ts)))
            (List.nodup_range workerCount) hslice
          have hrec := ih ts hlen2 hlt2
          simp only [poolResults] at hupd hrec ⊢
          refine hupd.trans ?_
          simp only [List.map_cons]
          exact List.Perm.cons _ hrec

theorem collectLoop_all (stream : List Result) :
    collectLoop stream.length stream = stream := by
  induction stream with
  | nil => rfl
  | cons r rest ih => simpa [collectLoop] using ih

theorem sendQuery_request (exchange : Exchange) (ctx : GoContext) (request : Request) :
    (SendQuery exchange ctx request).Request = request := by
  cases hty : stringToType request.RecordType with
  | none => simp [SendQuery, hty]
  | some rtype =>
      cases hex : exchange ctx
          { question := request.RecordName
            qtype := rtype
            edns := if request.VerifySignature then some (4096, true) else none }
          request.Destination with
      | fail msg rtt => simp [SendQuery, hty, hex]
      | ok rrs rtt => simp [SendQuery, hty, hex]

/-- C1: a batch of N jobs submitted to the dispatch queue before the
completion signal yields a Results stream of exactly N Results, whose
originating-request multiset is exactly the multiset of submitted jobs (1:1
multiplicity, however many of them fail), and the orchestrator's collection
loop — which reads N times — receives precisely that stream.  The stream is
quantified over every job-to-worker assignment and every interleaving
(permutation) of the per-worker output sequences. -/
theorem batch_one_result_per_job
    (exchange : Exchange) (workerCount : Nat) (jobs : List Request)
    (assignment : List Nat) (streamed : List Result)
    (hlen : assignment.length = jobs.length)
    (hassign : ∀ t ∈ assignment, t < workerCount)
    (hstream : List.Perm streamed (poolResults exchange jobs assignment workerCount)) :
    streamed.length = jobs.length ∧
    List.Perm (streamed.map Result.Request) jobs ∧
    collectLoop jobs.length streamed = streamed := by
  have hpool := poolResults_perm exchange workerCount jobs assignment hlen hassign
  have hper : List.Perm streamed (jobs.map (processRequest exchange)) :=
    hstream.trans hpool
  have hlen2 : streamed.length = jobs.length := by
    rw [hper.length_eq, List.length_map]
  refine ⟨hlen2, ?_, ?_⟩
  · have hmap := hper.map Result.Request
    rw [List.map_map] at hmap
    have hid : ∀ j ∈ jobs, (Result.Request ∘ processRequest exchange) j = id j := by
      intro j _
      simp [Function.comp, processRequest, sendQuery_request]
    rw [List.map_congr_left hid, List.map_id] at hmap
    exact hmap
  · rw [← hlen2]
    exact collectLoop_all streamed

/-- Witness for C1: two jobs, two workers, a failing transport, the stream
taken as the pool output itself. -/
theorem batch_one_result_per_job_witness :
    (poolResults (fun _ _ _ => ExchangeOutcome.fail "timeout" 3)
        [Add (some CtxVal.background) "8.8.8.8:53" "A" "google.com." false,
         Add (some CtxVal.background) "8.8.8.8:53" "A" "wikipedia.org." false]
        [0, 1] 2).length =
      [Add (some CtxVal.background) "8.8.8.8:53" "A" "google.com." false,
       Add (some CtxVal.background) "8.8.8.8:53" "A" "wikipedia.org." false].length ∧
    List.Perm
      ((poolResults (fun _ _ _ => ExchangeOutcome.fail "timeout" 3)
          [Add (some CtxVal.background) "8.8.8.8:53" "A" "google.com." false,
           Add (some CtxVal.background) "8.8.8.8:53" "A" "wikipedia.org." false]
          [0, 1] 2).map Result.Request)
      [Add (some CtxVal.background) "8.8.8.8:53" "A" "google.com." false,
       Add (some CtxVal.background) "8.8.8.8:53" "A" "wikipedia.org." false] ∧
    collectLoop
      [Add (some CtxVal.background) "8.8.8.8:53" "A" "google.com." false,
       Add (some CtxVal.background) "8.8.8.8:53" "A" "wikipedia.org." false].length
      (poolResults (fun _ _ _ => ExchangeOutcome.fail "timeout" 3)
        [Add (some CtxVal.background) "8.8.8.8:53" "A" "google.com." false,
         Add (some CtxVal.background) "8.8.8.8:53" "A" "wikipedia.org." false]
        [0, 1] 2) =
      poolResults (fun _ _ _ => ExchangeOutcome.fail "timeout" 3)
        [Add (some CtxVal.background) "8.8.8.8:53" "A" "google.com." false,
         Add (some CtxVal.background) "8.8.8.8:53" "A" "wikipedia.org." false]
        [0, 1] 2 :=
  batch_one_result_per_job _ 2 _ [0, 1] _ (by decide)
    (by decide) (List.Perm.refl _)

/-- Mirrors the SummaryEntry record built by runCliBenchmark for each
nameserver; AverageMs models the Go float64 field as an exact rational. -/
structure SummaryEntry where
  Nameserver : String
  AverageMs : ℚ
  SuccessfulQueries : Nat
  TotalQueries : Nat
deriving DecidableEq

/-- Mirrors the accumulation loop over resultsForNs in runCliBenchmark:
nsTotalDuration (nanoseconds) and nsSuccessfulQueries, counting a Result and
adding its Duration exactly when its Error field is empty. -/
def summaryAccum : List Result → Int × Nat
  | [] => (0, 0)
  | r :: rest =>
      let acc := summaryAccum rest
      if r.Error = "" then (acc.1 + r.Duration, acc.2 + 1) else acc

/-- Mirrors the summary construction of runCliBenchmark:
avgMs = float64(nsTotalDuration.Nanoseconds()/1e6) / float64(nsSuccessfulQueries),
where the division inside the cast is Go int64 division (truncating), and the
Go zero value 0 is kept when there is no successful query. -/
def mkSummary (ns : String) (resultsForNs : List Result) : SummaryEntry :=
  let acc := summaryAccum resultsForNs
  { Nameserver := ns
    AverageMs := if 0 < acc.2 then (((acc.1.tdiv 1000000 : Int) : ℚ) / (acc.2 : ℚ)) else 0
    SuccessfulQueries := acc.2
    TotalQueries := resultsForNs.length }

/-- Stated from the spec: the Results without a failure description. -/
def successfulResults (rs : List Result) : List Result :=
  rs.filter (fun r => r.Error == "")

/-- Stated from the spec: the exact arithmetic mean, in milliseconds, of the
elapsed durations (nanoseconds) of the successful Results only. -/
def exactMeanMs (rs : List Result) : ℚ :=
  (((successfulResults rs).map (fun r => (r.Duration : ℚ))).sum /
    ((successfulResults rs).length : ℚ)) / 1000000

/-- Mirrors the average-printing branch of the per-nameserver detail report:
some average when the success count is positive, otherwise none standing for
the literal text "Average Response Time: N/A (no successful queries)". -/
def averageDisplay (entry : SummaryEntry) : Option ℚ :=
  if 0 < entry.SuccessfulQueries then some entry.AverageMs else none

/-- Sample successful Result with the given elapsed duration in nanoseconds. -/
def sampleOk (dest : String) (d : Int) : Result :=
  { Request := Add (some CtxVal.background) dest "A" "google.com." false
    Duration := d
    Answers := [{ Ttl := 300, Name := "google.com.", String := "google.com. 300 IN A 142.250.80.46" }]
    Error := "" }

/-- Sample failed Result (transport failure) with the given elapsed duration. -/
def sampleFail (dest : String) (d : Int) : Result :=
  { Request := Add (some CtxVal.background) dest "A" "google.com." false
    Duration := d
    Answers := []
    Error := "dns exchange failed: timeout" }

/-- Helper: the accumulation loop computes exactly the duration total and the
count of the spec's successful-Results sublist. -/
theorem summaryAccum_eq (rs : List Result) :
    summaryAccum rs =
      (((successfulResults rs).map Result.Duration).sum,
        (successfulResults rs).length) := by
  induction rs with
  | nil => rfl
  | cons r rest ih =>
      by_cases h : r.Error = ""
      · simp [summaryAccum, successfulResults, List.filter_cons, h, ih, add_comm]
      · simp [summaryAccum, successfulResults, List.filter_cons, h, ih]

/-- C3 counterexample: one successful query of 1.5 ms.  The code reports a
mean of 1 ms (integer division by 1e6 truncates before the float division),
while the exact arithmetic mean of the successful elapsed durations is
1.5 ms, so the reported mean differs from the claimed exact mean. -/
theorem mean_truncation_counterexample :
    0 < (mkSummary "8.8.8.8:53" [sampleOk "8.8.8.8:53" 1500000]).SuccessfulQueries ∧
    (mkSummary "8.8.8.8:53" [sampleOk "8.8.8.8:53" 1500000]).AverageMs = 1 ∧
    exactMeanMs [sampleOk "8.8.8.8:53" 1500000] = 3 / 2 ∧
    (mkSummary "8.8.8.8:53" [sampleOk "8.8.8.8:53" 1500000]).AverageMs ≠
      exactMeanMs [sampleOk "8.8.8.8:53" 1500000] := by
  have htdiv : (1500000 : Int).tdiv 1000000 = 1 := by decide
  refine ⟨?_, ?_, ?_, ?_⟩
  · simp [mkSummary, summaryAccum, sampleOk]
  · simp [mkSummary, summaryAccum, sampleOk, htdiv]
  · simp [exactMeanMs, successfulResults, sampleOk]
    norm_num
  · simp [mkSummary, summaryAccum, exactMeanMs, successfulResults, sampleOk, htdiv]
    norm_num

/-- C3 amended: for a nameserver with at least one successful Result, the
reported mean is the successful-durations total truncated to whole
milliseconds, divided by the successful count (failed Results contribute to
neither numerator nor denominator) — not the exact arithmetic mean. -/
theorem mean_is_truncated_total (ns : String) (rs : List Result)
    (hsucc : 0 < (mkSummary ns rs).SuccessfulQueries) :
    (mkSummary ns rs).AverageMs =
      ((((successfulResults rs).map Result.Duration).sum.tdiv 1000000 : Int) : ℚ) /
        ((successfulResults rs).length : ℚ) := by
  simp only [mkSummary, summaryAccum_eq] at hsucc ⊢
  rw [if_pos hsucc]

/-- Witness for C3's amended statement at one successful 1.5 ms query. -/
theorem mean_is_truncated_total_witness :
    0 < (mkSummary "8.8.8.8:53" [sampleOk "8.8.8.8:53" 1500000]).SuccessfulQueries ∧
    (mkSummary "8.8.8.8:53" [sampleOk "8.8.8.8:53" 1500000]).AverageMs =
      ((((successfulResults [sampleOk "8.8.8.8:53" 1500000]).map
          Result.Duration).sum.tdiv 1000000 : Int) : ℚ) /
        ((successfulResults [sampleOk "8.8.8.8:53" 1500000]).length : ℚ) :=
  ⟨by simp [mkSummary, summaryAccum, sampleOk],
   mean_is_truncated_total _ _ (by simp [mkSummary, summaryAccum, sampleOk])⟩

/-- C4 counterexample: a zero-success nameserver's summary stores the number 0
as its mean — exactly the value produced by a genuine 0 ms average — in the
summary data used for ranking, rather than a distinct "not applicable"
value. -/
theorem na_mean_coerced_counterexample :
    (mkSummary "8.8.8.8:53" [sampleFail "8.8.8.8:53" 2000000]).SuccessfulQueries = 0 ∧
    (mkSummary "8.8.8.8:53" [sampleFail "8.8.8.8:53" 2000000]).AverageMs = 0 ∧
    0 < (mkSummary "9.9.9.9:53" [sampleOk "9.9.9.9:53" 0]).SuccessfulQueries ∧
    (mkSummary "9.9.9.9:53" [sampleOk "9.9.9.9:53" 0]).AverageMs = 0 ∧
    (mkSummary "8.8.8.8:53" [sampleFail "8.8.8.8:53" 2000000]).AverageMs =
      (mkSummary "9.9.9.9:53" [sampleOk "9.9.9.9:53" 0]).AverageMs := by
  have htdiv : (0 : Int).tdiv 1000000 = 0 := by decide
  refine ⟨?_, ?_, ?_, ?_, ?_⟩ <;>
    simp [mkSummary, summaryAccum, sampleOk, sampleFail, htdiv]

/-- C4 amended: with zero successful Results, the ranking-facing summary field
AverageMs holds the number 0 (indistinguishable from a true 0 ms mean); only
the printed per-nameserver detail line distinguishes the case, showing the
"N/A" text instead of a number. -/
theorem na_mean_zero_in_summary (ns : String) (rs : List Result)
    (hzero : (mkSummary ns rs).SuccessfulQueries = 0) :
    (mkSummary ns rs).AverageMs = 0 ∧
    averageDisplay (mkSummary ns rs) = none := by
  simp only [mkSummary] at hzero
  constructor
  · simp [mkSummary, hzero]
  · simp [averageDisplay, mkSummary, hzero]

/-- Witness for C4's amended statement at one failed query. -/
theorem na_mean_zero_in_summary_witness :
    (mkSummary "8.8.8.8:53" [sampleFail "8.8.8.8:53" 2000000]).SuccessfulQueries = 0 ∧
    (mkSummary "8.8.8.8:53" [sampleFail "8.8.8.8:53" 2000000]).AverageMs = 0 ∧
    averageDisplay (mkSummary "8.8.8.8:53" [sampleFail "8.8.8.8:53" 2000000]) = none :=
  ⟨by simp [mkSummary, summaryAccum, sampleFail],
   (na_mean_zero_in_summary _ _ (by simp [mkSummary, summaryAccum, sampleFail])).1,
   (na_mean_zero_in_summary _ _ (by simp [mkSummary, summaryAccum, sampleFail])).2⟩

/-- Model of Go strings.Split(s, ",") on the character list of a string:
split at every comma, keeping empty fields (Split of the empty string is one
empty field). -/
def splitFields : List Char → List (List Char)
  | [] => [[]]
  | c :: rest =>
      if c = ',' then [] :: splitFields rest
      else
        match splitFields rest with
        | [] => [[c]]
        | x :: xs => (c :: x) :: xs

/-- Model of Go strings.TrimSpace on characters (whitespace per
Char.isWhitespace, covering the ASCII space characters Go trims here). -/
def trimSpace (l : List Char) : List Char :=
  ((l.dropWhile Char.isWhitespace).reverse.dropWhile Char.isWhitespace).reverse

/-- Model of Go strings.Contains(ns, ":") on characters. -/
def containsColon (l : List Char) : Bool :=
  l.contains ':'

/-- Mirrors the element loop of parseNameservers: trim each comma-separated
part, skip empty parts, and append the default port ":53" exactly when the
part does not already contain a colon. -/
def parseLoop : List (List Char) → List (List Char)
  | [] => []
  | s :: rest =>
      let ns := trimSpace s
      if ns.isEmpty then parseLoop rest
      else
        (if containsColon ns then ns else ns ++ [':', '5', '3']) :: parseLoop rest

/-- Mirrors parseNameservers of the CLI: an empty flag, or a flag whose parts
all trim to empty, falls back to the default list; otherwise the normalized
entries are returned in order. -/
def parseNameservers (nsFlag : String) (defaultNS : List String) : List String :=
  if nsFlag = "" then defaultNS
  else
    let parsed := (parseLoop (splitFields nsFlag.data)).map (fun l => String.mk l)
    if parsed = [] then defaultNS else parsed

/-- Stated from the claim: an entry already containing a colon is left
unchanged, an entry without one gets ":53" appended. -/
def claimNormalize (entry : List Char) : List Char :=
  if containsColon entry then entry else entry ++ [':', '5', '3']

/-- Entries of the comma-separated nameserver flag: its fields, trimmed, with
empty ones dropped. -/
def flagEntries (nsFlag : String) : List (List Char) :=
  ((splitFields nsFlag.data).map trimSpace).filter (fun t => !(t.isEmpty))

/-- Helper: the parse loop is exactly claim-normalization mapped over the
trimmed non-empty fields. -/
theorem parseLoop_eq (l : List (List Char)) :
    parseLoop l = ((l.map trimSpace).filter (fun t => !(t.isEmpty))).map claimNormalize := by
  induction l with
  | nil => rfl
  | cons s rest ih =>
      by_cases h : (trimSpace s).isEmpty
      · simp [parseLoop, List.filter_cons, h, ih]
      · simp [parseLoop, List.filter_cons, h, ih, claimNormalize]

/-- C8: for a non-empty nameserver flag with at least one non-empty entry,
parseNameservers returns exactly the flag's entries each normalized per the
claim — an entry containing a colon is kept unchanged, an entry without a
colon gets the default port ":53" appended. -/
theorem parseNameservers_normalizes (nsFlag : String) (defaultNS : List String)
    (hne : nsFlag ≠ "") (hval : flagEntries nsFlag ≠ []) :
    parseNameservers nsFlag defaultNS =
      ((flagEntries nsFlag).map claimNormalize).map (fun l => String.mk l) ∧
    ∀ t ∈ flagEntries nsFlag,
      (containsColon t = true → claimNormalize t = t) ∧
      (containsColon t = false → claimNormalize t = t ++ [':', '5', '3']) := by
  constructor
  · rw [parseNameservers, if_neg hne, parseLoop_eq]
    rw [if_neg]
    · rfl
    · simp only [ne_eq, List.map_eq_nil_iff]
      exact fun h => hval (by simpa [flagEntries] using h)
  · intro t _
    constructor
    · intro h
      simp [claimNormalize, h]
    · intro h
      simp [claimNormalize, h]

/-- Witness for C8 at the flag "9.9.9.9, 9.9.9.9:5353": the portless entry
gains ":53", the entry with an explicit port is unchanged. -/
theorem parseNameservers_normalizes_witness :
    parseNameservers "9.9.9.9, 9.9.9.9:5353" ["8.8.8.8:53"] =
      ((flagEntries "9.9.9.9, 9.9.9.9:5353").map claimNormalize).map (fun l => String.mk l) ∧
    ∀ t ∈ flagEntries "9.9.9.9, 9.9.9.9:5353",
      (containsColon t = true → claimNormalize t = t) ∧
      (containsColon t = false → claimNormalize t = t ++ [':', '5', '3']) :=
  parseNameservers_normalizes "9.9.9.9, 9.9.9.9:5353" ["8.8.8.8:53"]
    (by decide) (by decide)

/-- Request list dispatched by runCliBenchmark for one nameserver: one job per
selected domain, each with RecordName := domain + ".". -/
def cliRequests (benchmarkCtx : GoContext) (ns rtype : String) (dnssec : Bool)
    (selectedDomains : List String) : List Request :=
  selectedDomains.map (fun domain =>
    { Ctx := benchmarkCtx
      Destination := ns
      RecordType := rtype
      RecordName := domain ++ "."
      VerifySignature := dnssec })

/-- Request list submitted by the UI Submit handler:
q.Add(uiCtx, "8.8.8.8:53", "A", record + ".", false) per hostname. -/
def uiRequests (hostnames : List String) : List Request :=
  hostnames.map (fun record =>
    Add (some CtxVal.background) "8.8.8.8:53" "A" (record ++ ".") false)

/-- C9: every Job the CLI orchestrator creates, and every Job the UI submit
handler creates, carries a RecordName equal to its selected domain followed by
the trailing "." separator. -/
theorem jobs_fully_qualified
    (benchmarkCtx : GoContext) (ns rtype : String) (dnssec : Bool)
    (domains hostnames : List String) (req req2 : Request)
    (hreq : req ∈ cliRequests benchmarkCtx ns rtype dnssec domains)
    (hreq2 : req2 ∈ uiRequests hostnames) :
    (∃ d ∈ domains, req.RecordName = d ++ ".") ∧
    (∃ h ∈ hostnames, req2.RecordName = h ++ ".") := by
  constructor
  · obtain ⟨d, hd, hmap⟩ := List.mem_map.mp hreq
    exact ⟨d, hd, by rw [← hmap]⟩
  · obtain ⟨h, hh, hmap⟩ := List.mem_map.mp hreq2
    exact ⟨h, hh, by rw [← hmap]; rfl⟩

/-- Witness for C9 at one CLI domain and one UI hostname. -/
theorem jobs_fully_qualified_witness :
    (∃ d ∈ ["google.com"],
      ({ Ctx := some CtxVal.background
         Destination := "8.8.8.8:53"
         RecordType := "A"
         RecordName := "google.com" ++ "."
         VerifySignature := false } : Request).RecordName = d ++ ".") ∧
    (∃ h ∈ ["wikipedia.org"],
      (Add (some CtxVal.background) "8.8.8.8:53" "A" ("wikipedia.org" ++ ".") false).RecordName =
        h ++ ".") :=
  jobs_fully_qualified (some CtxVal.background) "8.8.8.8:53" "A" false
    ["google.com"] ["wikipedia.org"] _ _
    (by simp [cliRequests]) (by simp [uiRequests])

/-- Mirrors the comparator closure passed to sort.Slice over summaryData:
equal averages are ordered by higher success count; otherwise an average of 0
is treated as worse than any positive average; otherwise ascending average. -/
def rankLess (x y : SummaryEntry) : Bool :=
  if x.AverageMs = y.AverageMs then decide (y.SuccessfulQueries < x.SuccessfulQueries)
  else if x.AverageMs = 0 ∧ 0 < y.AverageMs then false
  else if y.AverageMs = 0 ∧ 0 < x.AverageMs then true
  else decide (x.AverageMs < y.AverageMs)

/-- Byte-wise string order used by sort.Strings, modelled on characters. -/
def charListLe : List Char → List Char → Bool
  | [], _ => true
  | _ :: _, [] => false
  | a :: as, b :: bs => if a < b then true else if b < a then false else charListLe as bs

/-- Insertion step of sorting the result map's keys alphabetically. -/
def insertByName (p : String × List Result) :
    List (String × List Result) → List (String × List Result)
  | [] => [p]
  | q :: rest =>
      if charListLe p.1.data q.1.data then p :: q :: rest else q :: insertByName p rest

/-- Mirrors the sortedNameservers step of runCliBenchmark: the per-nameserver
result sets arranged in ascending nameserver order (sort.Strings over the
result-map keys; keys are unique, so the sorted sequence is unique). -/
def sortByName (l : List (String × List Result)) : List (String × List Result) :=
  l.foldr insertByName []

/-- Mirrors the summaryData construction: one SummaryEntry per nameserver of
the benchmark's result map, built in sorted-name order. -/
def buildSummaries (allResults : List (String × List Result)) : List SummaryEntry :=
  (sortByName allResults).map (fun p => mkSummary p.1 p.2)

/-- Sortedness in the sense guaranteed by Go's sort.Slice: no element is
strictly less, per the comparator, than an element placed before it. -/
def SortedBy (output : List SummaryEntry) : Prop :=
  List.Pairwise (fun x y => rankLess y x = false) output

/-- Relational contract of sort.Slice, an unstable sort: the ranking is some
permutation of summaryData that is sorted per the comparator. -/
def RankedOutput (input output : List SummaryEntry) : Prop :=
  List.Perm output input ∧ SortedBy output

/-- Results recorded for a nameserver in the benchmark's result map. -/
def lookupResults (input : List (String × List Result)) (ns : String) : List Result :=
  (input.lookup ns).getD []

/-- Successful-query count of a nameserver, per the spec's definition. -/
def nsSucc (input : List (String × List Result)) (ns : String) : Nat :=
  (successfulResults (lookupResults input ns)).length

/-- Exact mean latency of a nameserver, per the spec's definition. -/
def nsMean (input : List (String × List Result)) (ns : String) : ℚ :=
  exactMeanMs (lookupResults input ns)

/-- Position of a nameserver in the input order. -/
def nsIndex (input : List (String × List Result)) (ns : String) : Nat :=
  (input.map Prod.fst).indexOf ns

/-- Stated from the claim: the spec's ranking order — every zero-success
nameserver after every nameserver with a success; among successful ones
ascending exact mean latency, ties broken by higher success count, remaining
ties in input order; zero-success ones among themselves in input order. -/
def specBefore (input : List (String × List Result)) (x y : String) : Prop :=
  (0 < nsSucc input x ∧ nsSucc input y = 0) ∨
  (0 < nsSucc input x ∧ 0 < nsSucc input y ∧
    (nsMean input x < nsMean input y ∨
      (nsMean input x = nsMean input y ∧
        (nsSucc input y < nsSucc input x ∨
          (nsSucc input x = nsSucc input y ∧ nsIndex input x ≤ nsIndex input y))))) ∨
  (nsSucc input x = 0 ∧ nsSucc input y = 0 ∧ nsIndex input x ≤ nsIndex input y)

/-- A ranking agrees with the spec's total order when consecutive placement
always respects specBefore. -/
def specOrdered (input : List (String × List Result)) (output : List SummaryEntry) : Prop :=
  List.Pairwise (fun a b => specBefore input a.Nameserver b.Nameserver) output

/-- Benchmark outcome with a sub-millisecond nameserver "a.ns" (one success of
0.5 ms) and a slower nameserver "b.ns" (one success of 5 ms). -/
def sampleRun : List (String × List Result) :=
  [("a.ns", [sampleOk "a.ns" 500000]), ("b.ns", [sampleOk "b.ns" 5000000])]

/-- Evaluation of the summary pipeline on sampleRun: "a.ns" has its 0.5 ms
mean truncated to an AverageMs of 0. -/
theorem buildSummaries_sampleRun :
    buildSummaries sampleRun =
      [{ Nameserver := "a.ns", AverageMs := 0, SuccessfulQueries := 1, TotalQueries := 1 },
       { Nameserver := "b.ns", AverageMs := 5, SuccessfulQueries := 1, TotalQueries := 1 }] := by
  have h1 : (500000 : Int).tdiv 1000000 = 0 := by decide
  have h2 : (5000000 : Int).tdiv 1000000 = 5 := by decide
  have hle : charListLe ("a.ns" : String).data ("b.ns" : String).data = true := by decide
  simp [buildSummaries, sortByName, insertByName, sampleRun, mkSummary, summaryAccum,
    sampleOk, hle, h1, h2]

theorem nsSucc_sampleRun_a : nsSucc sampleRun "a.ns" = 1 := by
  simp [nsSucc, lookupResults, sampleRun, successfulResults, sampleOk, List.lookup]

theorem nsSucc_sampleRun_b : nsSucc sampleRun "b.ns" = 1 := by
  simp [nsSucc, lookupResults, sampleRun, successfulResults, sampleOk, List.lookup]

theorem nsMean_sampleRun_a : nsMean sampleRun "a.ns" = 1 / 2 := by
  simp [nsMean, lookupResults, sampleRun, exactMeanMs, successfulResults, sampleOk,
    List.lookup]
  norm_num

theorem nsMean_sampleRun_b : nsMean sampleRun "b.ns" = 5 := by
  simp [nsMean, lookupResults, sampleRun, exactMeanMs, successfulResults, sampleOk,
    List.lookup]
  norm_num

/-- Helper: on sampleRun, the ranking placing "b.ns" before "a.ns" is a valid
sort.Slice outcome (a comparator-sorted permutation of the summaries). -/
theorem sampleRun_ranked :
    RankedOutput (buildSummaries sampleRun)
      [{ Nameserver := "b.ns", AverageMs := 5, SuccessfulQueries := 1, TotalQueries := 1 },
       { Nameserver := "a.ns", AverageMs := 0, SuccessfulQueries := 1, TotalQueries := 1 }] := by
  constructor
  · rw [buildSummaries_sampleRun]
    exact List.Perm.swap _ _ _
  · simp only [SortedBy, List.pairwise_cons, List.mem_singleton]
    refine ⟨?_, by simp, List.Pairwise.nil⟩
    intro e he
    subst he
    norm_num [rankLess]

/-- C2 counterexample: on sampleRun the comparator-sorted ranking places
"b.ns" (reported average 5 ms) before "a.ns" (exact mean 0.5 ms, truncated to
an AverageMs of 0 and therefore pushed to the back as if it had no success),
while the spec's order puts "a.ns" — the nameserver with the smaller mean
latency and one success — first. -/
theorem ranking_counterexample :
    RankedOutput (buildSummaries sampleRun)
      [{ Nameserver := "b.ns", AverageMs := 5, SuccessfulQueries := 1, TotalQueries := 1 },
       { Nameserver := "a.ns", AverageMs := 0, SuccessfulQueries := 1, TotalQueries := 1 }] ∧
    ¬ specOrdered sampleRun
      [{ Nameserver := "b.ns", AverageMs := 5, SuccessfulQueries := 1, TotalQueries := 1 },
       { Nameserver := "a.ns", AverageMs := 0, SuccessfulQueries := 1, TotalQueries := 1 }] := by
  refine ⟨sampleRun_ranked, ?_⟩
  intro hord
  have hpair := (List.pairwise_cons.mp hord).1 _ (List.mem_singleton.mpr rfl)
  rcases hpair with h | h | h
  · rw [nsSucc_sampleRun_a] at h
    exact one_ne_zero h.2
  · rw [nsMean_sampleRun_b, nsMean_sampleRun_a] at h
    rcases h.2.2 with hlt | heq
    · norm_num at hlt
    · norm_num at heq
  · rw [nsSucc_sampleRun_b] at h
    exact one_ne_zero h.1

theorem insertByName_perm (p : String × List Result) (l : List (String × List Result)) :
    List.Perm (insertByName p l) (p :: l) := by
  induction l with
  | nil => exact List.Perm.refl _
  | cons q rest ih =>
      simp only [insertByName]
      by_cases h : charListLe p.1.data q.1.data
      · rw [if_pos h]
      · rw [if_neg h]
        exact List.Perm.trans (List.Perm.cons q ih) (List.Perm.swap p q rest)

theorem sortByName_perm (l : List (String × List Result)) :
    List.Perm (sortByName l) l := by
  induction l with
  | nil => exact List.Perm.refl _
  | cons p rest ih =>
      simp only [sortByName, List.foldr_cons]
      exact List.Perm.trans (insertByName_perm p _) (List.Perm.cons p ih)

theorem mem_buildSummaries {input : List (String × List Result)} {e : SummaryEntry}
    (he : e ∈ buildSummaries input) :
    ∃ p ∈ input, e = mkSummary p.1 p.2 := by
  obtain ⟨p, hp, hmap⟩ := List.mem_map.mp he
  exact ⟨p, (sortByName_perm input).mem_iff.mp hp, hmap.symm⟩

theorem mkSummary_avg_zero {ns : String} {rs : List Result}
    (h : (mkSummary ns rs).SuccessfulQueries = 0) :
    (mkSummary ns rs).AverageMs = 0 := by
  simp only [mkSummary] at h ⊢
  simp [h]

theorem mkSummary_avg_nonneg {ns : String} {rs : List Result}
    (h : ∀ r ∈ rs, 0 ≤ r.Duration) :
    0 ≤ (mkSummary ns rs).AverageMs := by
  simp only [mkSummary, summaryAccum_eq]
  by_cases hs : 0 < (successfulResults rs).length
  · rw [if_pos hs]
    apply div_nonneg
    · have hsum : 0 ≤ ((successfulResults rs).map Result.Duration).sum := by
        apply List.sum_nonneg
        intro x hx
        obtain ⟨r, hr, hrx⟩ := List.mem_map.mp hx
        have hrs : r ∈ rs := (List.mem_filter.mp hr).1
        exact hrx ▸ h r hrs
      exact_mod_cast Int.tdiv_nonneg hsum (by norm_num)
    · exact Nat.cast_nonneg _
  · rw [if_neg hs]

theorem rankedOutput_avg_nonneg
    {input : List (String × List Result)} {output : List SummaryEntry}
    (hdur : ∀ p ∈ input, ∀ r ∈ p.2, 0 ≤ r.Duration)
    (hranked : RankedOutput (buildSummaries input) output) :
    ∀ e ∈ output, 0 ≤ e.AverageMs := by
  intro e he
  obtain ⟨p, hp, hep⟩ := mem_buildSummaries (hranked.1.mem_iff.mp he)
  rw [hep]
  exact mkSummary_avg_nonneg (hdur p hp)

/-- C2 amended: in any ranking the code can produce over the summaries (a
comparator-sorted permutation — the sort is not stable and its input is the
alphabetically pre-sorted entry list, so remaining ties carry no input-order
guarantee), with all recorded durations non-negative: every zero-success
entry carries AverageMs 0; ties in AverageMs are ordered by higher success
count first; an entry with AverageMs 0 — whether from zero successes or from
a sub-millisecond truncated mean — never precedes an entry with a different
average, i.e. everything after it is also 0; and entries with non-zero
AverageMs appear in ascending AverageMs order. -/
theorem ranking_amended
    (input : List (String × List Result)) (output : List SummaryEntry)
    (hdur : ∀ p ∈ input, ∀ r ∈ p.2, 0 ≤ r.Duration)
    (hranked : RankedOutput (buildSummaries input) output) :
    (∀ e ∈ output, e.SuccessfulQueries = 0 → e.AverageMs = 0) ∧
    (∀ x y, List.Sublist [x, y] output →
      (x.AverageMs = y.AverageMs → y.SuccessfulQueries ≤ x.SuccessfulQueries) ∧
      (x.AverageMs = 0 → y.AverageMs = 0) ∧
      (x.AverageMs ≠ 0 → y.AverageMs ≠ 0 → x.AverageMs ≤ y.AverageMs)) := by
  constructor
  · intro e he hzero
    obtain ⟨p, hp, hep⟩ := mem_buildSummaries (hranked.1.mem_iff.mp he)
    rw [hep]
    exact mkSummary_avg_zero (hep ▸ hzero)
  · intro x y hsub
    have hrel : rankLess y x = false := by
      have hp := List.Pairwise.sublist hsub hranked.2
      exact (List.pairwise_cons.mp hp).1 y (List.mem_singleton.mpr rfl)
    have hynn : 0 ≤ y.AverageMs :=
      rankedOutput_avg_nonneg hdur hranked y (hsub.subset (by simp))
    refine ⟨?_, ?_, ?_⟩
    · intro hxy
      simp only [rankLess] at hrel
      rw [if_pos hxy.symm] at hrel
      simp only [decide_eq_false_iff_not, not_lt] at hrel
      exact hrel
    · intro hx0
      by_cases hyx : y.AverageMs = x.AverageMs
      · rw [hyx, hx0]
      · simp only [rankLess] at hrel
        rw [if_neg hyx] at hrel
        by_cases h2 : y.AverageMs = 0 ∧ 0 < x.AverageMs
        · exact h2.1
        · rw [if_neg h2] at hrel
          by_cases h3 : x.AverageMs = 0 ∧ 0 < y.AverageMs
          · rw [if_pos h3] at hrel
            simp at hrel
          · have hnlt : ¬ 0 < y.AverageMs := fun hy => h3 ⟨hx0, hy⟩
            exact le_antisymm (not_lt.mp hnlt) hynn
    · intro hx hy
      by_contra hcon
      push_neg at hcon
      have hne : y.AverageMs ≠ x.AverageMs := ne_of_lt hcon
      simp only [rankLess] at hrel
      rw [if_neg hne] at hrel
      have h2 : ¬(y.AverageMs = 0 ∧ 0 < x.AverageMs) := fun hc => hy hc.1
      rw [if_neg h2] at hrel
      have h3 : ¬(x.AverageMs = 0 ∧ 0 < y.AverageMs) := fun hc => hx hc.1
      rw [if_neg h3] at hrel
      simp only [decide_eq_false_iff_not] at hrel
      exact hrel hcon

/-- Evaluation of the summary pipeline on a single 5 ms nameserver. -/
theorem buildSummaries_single :
    buildSummaries [("a.ns", [sampleOk "a.ns" 5000000])] =
      [{ Nameserver := "a.ns", AverageMs := 5, SuccessfulQueries := 1, TotalQueries := 1 }] := by
  have h2 : (5000000 : Int).tdiv 1000000 = 5 := by decide
  simp [buildSummaries, sortByName, insertByName, mkSummary, summaryAccum, sampleOk, h2]

/-- Witness for C2's amended statement on a one-nameserver run, the ranking
being the pipeline output itself. -/
theorem ranking_amended_witness :
    (∀ e ∈ buildSummaries [("a.ns", [sampleOk "a.ns" 5000000])],
      e.SuccessfulQueries = 0 → e.AverageMs = 0) ∧
    (∀ x y, List.Sublist [x, y] (buildSummaries [("a.ns", [sampleOk "a.ns" 5000000])]) →
      (x.AverageMs = y.AverageMs → y.SuccessfulQueries ≤ x.SuccessfulQueries) ∧
      (x.AverageMs = 0 → y.AverageMs = 0) ∧
      (x.AverageMs ≠ 0 → y.AverageMs ≠ 0 → x.AverageMs ≤ y.AverageMs)) :=
  ranking_amended [("a.ns", [sampleOk "a.ns" 5000000])] _
    (by intro p hp r hr; simp [sampleOk] at hp; simp [hp, sampleOk] at hr; simp [hr])
    ⟨List.Perm.refl _, by rw [buildSummaries_single]; simp [SortedBy]⟩

/-- Mirrors the Fastest Nameserver(s) loop of runCliBenchmark over the ranked
summaryData: print an entry when its average equals fastestAvg and it has a
success; stop at the first entry whose average exceeds fastestAvg and is not
0; otherwise keep scanning. -/
def fastestLoop (fastestAvg : ℚ) : List SummaryEntry → List SummaryEntry
  | [] => []
  | e :: rest =>
      if e.AverageMs = fastestAvg ∧ 0 < e.SuccessfulQueries then
        e :: fastestLoop fastestAvg rest
      else if fastestAvg < e.AverageMs ∧ e.AverageMs ≠ 0 then []
      else fastestLoop fastestAvg rest

/-- Average of the first ranked entry — the loop's
fastestAvg := summaryData[0].AverageMs (0 for an empty ranking, where the
code prints nothing). -/
def headAvg : List SummaryEntry → ℚ
  | [] => 0
  | e :: _ => e.AverageMs

/-- The fastest subset the CLI report exposes, as a function of the ranked
summaryData. -/
def fastestSet (ranked : List SummaryEntry) : List SummaryEntry :=
  match ranked with
  | [] => []
  | first :: _ => fastestLoop first.AverageMs ranked

/-- Stated from the claim: a nameserver with at least one successful Result
whose mean latency equals the best (smallest) mean latency among nameservers
with at least one success. -/
def claimFastest (input : List (String × List Result)) (ns : String) : Prop :=
  0 < nsSucc input ns ∧
  ∀ ns2 ∈ input.map Prod.fst, 0 < nsSucc input ns2 → nsMean input ns ≤ nsMean input ns2

/-- C7 counterexample: on sampleRun the report's fastest subset is exactly
"b.ns" (its 5 ms average heads the ranking because "a.ns" was truncated to an
AverageMs of 0 and pushed to the back), yet per the claim "b.ns" is not
fastest and "a.ns" (exact mean 0.5 ms, one success) is. -/
theorem fastest_counterexample :
    RankedOutput (buildSummaries sampleRun)
      [{ Nameserver := "b.ns", AverageMs := 5, SuccessfulQueries := 1, TotalQueries := 1 },
       { Nameserver := "a.ns", AverageMs := 0, SuccessfulQueries := 1, TotalQueries := 1 }] ∧
    (fastestSet
        [{ Nameserver := "b.ns", AverageMs := 5, SuccessfulQueries := 1, TotalQueries := 1 },
         { Nameserver := "a.ns", AverageMs := 0, SuccessfulQueries := 1, TotalQueries := 1 }]).map
      SummaryEntry.Nameserver = ["b.ns"] ∧
    ¬ claimFastest sampleRun "b.ns" ∧
    claimFastest sampleRun "a.ns" := by
  refine ⟨sampleRun_ranked, ?_, ?_, ?_⟩
  · norm_num [fastestSet, fastestLoop]
  · intro hcf
    have hba := hcf.2 "a.ns" (by simp [sampleRun]) (by rw [nsSucc_sampleRun_a]; norm_num)
    rw [nsMean_sampleRun_b, nsMean_sampleRun_a] at hba
    norm_num at hba
  · refine ⟨by rw [nsSucc_sampleRun_a]; norm_num, ?_⟩
    intro ns2 hmem _
    rcases (by simpa [sampleRun] using hmem : ns2 = "a.ns" ∨ ns2 = "b.ns") with h | h
    · subst h
      exact le_refl _
    · subst h
      rw [nsMean_sampleRun_a, nsMean_sampleRun_b]
      norm_num

/-- Helper: the fastest-subset predicate as the loop decides it. -/
def fastestPred (favg : ℚ) (e : SummaryEntry) : Bool :=
  decide (e.AverageMs = favg) && decide (0 < e.SuccessfulQueries)

theorem fastestPred_eq_true {favg : ℚ} {e : SummaryEntry} :
    fastestPred favg e = true ↔ (e.AverageMs = favg ∧ 0 < e.SuccessfulQueries) := by
  simp [fastestPred]

theorem fastestPred_eq_false {favg : ℚ} {e : SummaryEntry} :
    fastestPred favg e = false ↔ ¬(e.AverageMs = favg ∧ 0 < e.SuccessfulQueries) := by
  rw [← Bool.not_eq_true, fastestPred_eq_true]

/-- Helper: below a ranked head entry h, the break-early scan collects exactly
the filter of entries tied with h's average that have a success. -/
theorem fastestLoop_eq_filter (h : SummaryEntry) :
    ∀ t : List SummaryEntry,
      (∀ x ∈ t, rankLess x h = false) →
      List.Pairwise (fun a b => rankLess b a = false) t →
      fastestLoop h.AverageMs t = t.filter (fastestPred h.AverageMs) := by
  intro t
  induction t with
  | nil => intro _ _; rfl
  | cons e rest ih =>
      intro hall hpw
      have he : rankLess e h = false := hall e (List.mem_cons_self e rest)
      have hrest : ∀ x ∈ rest, rankLess x h = false :=
        fun x hx => hall x (List.mem_cons_of_mem _ hx)
      have hpc := List.pairwise_cons.mp hpw
      by_cases hp : e.AverageMs = h.AverageMs ∧ 0 < e.SuccessfulQueries
      · simp only [fastestLoop, if_pos hp, List.filter_cons,
          fastestPred_eq_true.mpr hp, if_true]
        rw [ih hrest hpc.2]
      · have hef : fastestPred h.AverageMs e = false := fastestPred_eq_false.mpr hp
        by_cases hb : h.AverageMs < e.AverageMs ∧ e.AverageMs ≠ 0
        · simp only [fastestLoop, if_neg hp, if_pos hb, List.filter_cons, hef]
          rw [if_neg (by simp)]
          symm
          rw [List.filter_eq_nil_iff]
          intro x hx hpx
          obtain ⟨hxa, hxs⟩ := fastestPred_eq_true.mp hpx
          have h0 : h.AverageMs ≠ 0 := by
            intro h0
            have hlt : rankLess e h = true := by
              simp only [rankLess]
              rw [if_neg (ne_of_gt hb.1)]
              rw [if_neg (fun hc => absurd (h0 ▸ hc.2) (lt_irrefl 0))]
              rw [if_pos ⟨h0, h0 ▸ hb.1⟩]
            rw [he] at hlt
            simp at hlt
          have hxe : rankLess x e = true := by
            simp only [rankLess]
            rw [if_neg (hxa ▸ ne_of_lt hb.1)]
            rw [if_neg (fun hc => h0 (hxa ▸ hc.1))]
            rw [if_neg (fun hc => hb.2 hc.1)]
            simp only [decide_eq_true_eq]
            exact hxa ▸ hb.1
          have := hpc.1 x hx
          rw [hxe] at this
          simp at this
        · simp only [fastestLoop, if_neg hp, if_neg hb, List.filter_cons, hef]
          rw [if_neg (by simp)]
          exact ih hrest hpc.2

/-- C7 amended: the fastest subset the report exposes consists of exactly the
ranked entries whose AverageMs equals the first-ranked entry's AverageMs and
that have at least one success.  Because AverageMs is the truncated average,
a nameserver whose true mean is smallest can be excluded when its sub-
millisecond average truncates to 0 (it is then ranked last, not first). -/
theorem fastest_amended
    (input : List (String × List Result)) (output : List SummaryEntry)
    (hranked : RankedOutput (buildSummaries input) output) :
    fastestSet output = output.filter (fastestPred (headAvg output)) := by
  obtain ⟨-, hsort⟩ := hranked
  cases output with
  | nil => rfl
  | cons h t =>
      have hpc := List.pairwise_cons.mp hsort
      simp only [fastestSet, headAvg]
      by_cases hs : 0 < h.SuccessfulQueries
      · simp only [fastestLoop, if_pos (And.intro rfl hs), List.filter_cons,
          fastestPred_eq_true.mpr (And.intro rfl hs), if_true]
        rw [fastestLoop_eq_filter h t hpc.1 hpc.2]
        simp [hs]
      · have hnp : ¬(h.AverageMs = h.AverageMs ∧ 0 < h.SuccessfulQueries) :=
          fun hc => hs hc.2
        have hnb : ¬(h.AverageMs < h.AverageMs ∧ h.AverageMs ≠ 0) :=
          fun hc => lt_irrefl _ hc.1
        have hef : fastestPred h.AverageMs h = false := fastestPred_eq_false.mpr hnp
        rw [List.filter_cons, if_neg (by rw [hef]; exact Bool.false_ne_true)]
        simp only [fastestLoop, if_neg hnb]
        rw [if_neg (fun hc => hs hc.2)]
        exact fastestLoop_eq_filter h t hpc.1 hpc.2

/-- Witness for C7's amended statement on a one-nameserver run, the ranking
being the pipeline output itself. -/
theorem fastest_amended_witness :
    fastestSet (buildSummaries [("a.ns", [sampleOk "a.ns" 5000000])]) =
      (buildSummaries [("a.ns", [sampleOk "a.ns" 5000000])]).filter
        (fastestPred (headAvg (buildSummaries [("a.ns", [sampleOk "a.ns" 5000000])]))) :=
  fastest_amended [("a.ns", [sampleOk "a.ns" 5000000])] _
    ⟨List.Perm.refl _, by rw [buildSummaries_single]; simp [SortedBy]⟩

end Namebench
